import Mathlib

/-!
Verification development for the HTTP CONNECT proxy tunnel transport
(`HttpProxyTransport` in `src/impl/httpproxytransport.cpp`).

The transport is embedded shallowly:

* bytes are modelled as `Char` (the C++ code reinterprets `std::byte`
  buffers as text when parsing the proxy response);
* the tunnel object is a `Tunnel` record holding the connection `State`
  and the pending byte buffer `mBuffer`;
* deliveries from the lower transport are `Option (List Char)`
  (`none` models a null `message_ptr`, i.e. end of stream);
* calls of `recv` on the registered receiver are recorded in an output
  list of `Recv` events instead of invoking a callback;
* C++ exceptions are modelled by explicit outcome values
  (`ParseOutcome.failure`, the `recvThrows` flag of `incomingExc`).
-/

namespace HttpProxyTransport

/-- Connection state of a transport (`rtc::impl::Transport::State`). -/
inductive State where
  | Disconnected
  | Connecting
  | Connected
  | Failed
deriving DecidableEq, Repr

/-- A tunnel instance: its current state together with the pending
receive buffer `mBuffer` that accumulates proxy-response bytes while
`Connecting`. -/
structure Tunnel where
  state : State
  buffer : List Char
deriving DecidableEq, Repr

/-- One event delivered to the registered receiver: `recv(message)`
forwarding payload bytes, or `recv(nullptr)` signalling end of stream. -/
inductive Recv where
  | data (payload : List Char)
  | eos
deriving DecidableEq, Repr

/-- Modelled from the spec: the external HTTP header-line tokenizer
(`utils::parseHttpLines`, whose source is not part of this repository).
Given a byte buffer it parses a sequence of CRLF-terminated text lines
forming a header block terminated by an empty line; it reports the
lines of the block and the number of bytes consumed when a complete
block is present, and a no-progress signal (`none`) when the block is
still incomplete.  `cur` accumulates the characters of the current
line in reverse. -/
def phlGo : List Char → List Char → Option (List (List Char) × Nat)
  | [], _ => none
  | [_], _ => none
  | c :: d :: rest, cur =>
    if c = '\r' ∧ d = '\n' then
      if cur = [] then some ([], 2)
      else
        match phlGo rest [] with
        | none => none
        | some (lines, n) => some (cur.reverse :: lines, cur.length + 2 + n)
    else phlGo (d :: rest) (c :: cur)

/-- Modelled from the spec: entry point of the external line tokenizer.
Returns `some (lines, length)` when a complete header block spans the
first `length` bytes of `b`, and `none` when no complete block is
present yet. -/
def parseHttpLines (b : List Char) : Option (List (List Char) × Nat) :=
  phlGo b []

/-- Character class skipped by `std::istream` formatted extraction in
the default locale. -/
def isStreamSpace (c : Char) : Bool :=
  c = ' ' || c = '\t' || c = '\n' || c = '\x0b' || c = '\x0c' || c = '\r'

/-- Value read by `istream >> (unsigned int)` from the token starting
at `l` (base-10 num_get formatted extraction): at most one sign
character followed immediately by decimal digits.  A failed extraction
(no digits) leaves the initialised value `0`.  A digit sequence whose
magnitude stays within `unsigned int` yields that value, negated
modulo `2^32` when the sign was a minus (so a field such as
`-4294967096` extracts as `200` with the stream still good); a
magnitude overflowing `unsigned int` stores the extreme value of the
accumulation, `0` for a negative field and `2^32 - 1` otherwise, with
the failbit set (the stored value is what the caller compares). -/
def readUInt (l : List Char) : Nat :=
  let neg := match l with
    | '-' :: _ => true
    | _ => false
  let l2 := match l with
    | '+' :: rest => rest
    | '-' :: rest => rest
    | _ => l
  let ds := l2.takeWhile Char.isDigit
  if ds = [] then 0
  else
    let v : Nat := ds.foldl (fun acc c => acc * 10 + (c.toNat - 48)) 0
    if v ≤ 4294967295 then
      if neg then (4294967296 - v) % 4294967296 else v
    else
      if neg then 0 else 4294967295

/-- The numeric status code extracted from the status line by
`std::istringstream status; status >> protocol >> code;` with
`code` initialised to `0`: skip whitespace, skip the protocol token,
skip whitespace, then read an unsigned decimal number (`0` when the
extraction fails). -/
def parseStatusCode (line : List Char) : Nat :=
  let t1 := line.dropWhile isStreamSpace
  let t2 := t1.dropWhile (fun c => !isStreamSpace c)
  let t3 := t2.dropWhile isStreamSpace
  readUInt t3

/-- Result of `HttpProxyTransport::parseHttpResponse`: the size_t
return value `0` is `waiting`, a non-zero return is `success`, and a
thrown `std::runtime_error` is `failure` with its message. -/
inductive ParseOutcome where
  | waiting
  | success (len : Nat)
  | failure (msg : String)
deriving DecidableEq, Repr

/-- `HttpProxyTransport::parseHttpResponse`: tokenize the buffer into
header lines; on no complete block return `waiting`; on an empty block
or a status code other than `200` throw; otherwise return the length
of the header block. -/
def parseHttpResponse (buffer : List Char) : ParseOutcome :=
  match parseHttpLines buffer with
  | none => ParseOutcome.waiting
  | some (lines, length) =>
    match lines with
    | [] => ParseOutcome.failure "Invalid http request for proxy"
    | statusLine :: _ =>
      let code := parseStatusCode statusLine
      if code = 200 then ParseOutcome.success length
      else ParseOutcome.failure ("Unexpected response code " ++ toString code ++ " for proxy")

/-- `HttpProxyTransport::incoming`, with the possibility that the
registered receiver throws from its callback made explicit: when
`recvThrows` is true, every `recv(message)` call made inside the `try`
block raises after delivering its message, and control falls through
to the closure-handling tail of the function (the `catch` logs and the
code after the `try` inspects the current state).  The function
returns the updated tunnel and the list of `recv` events issued. -/
def incomingExc (recvThrows : Bool) (t : Tunnel) (msg : Option (List Char)) :
    Tunnel × List Recv :=
  if t.state = State.Connecting ∨ t.state = State.Connected then
    match msg with
    | some m =>
      if t.state = State.Connecting then
        let buf := t.buffer ++ m
        match parseHttpResponse buf with
        | ParseOutcome.waiting => (⟨State.Connecting, buf⟩, [])
        | ParseOutcome.success len =>
          let rest := buf.drop len
          if rest = [] then (⟨State.Connected, rest⟩, [])
          else if recvThrows then
            (⟨State.Disconnected, rest⟩, [Recv.data rest, Recv.eos])
          else (⟨State.Connected, []⟩, [Recv.data rest])
        | ParseOutcome.failure _ => (⟨State.Failed, buf⟩, [])
      else
        if recvThrows then (⟨State.Disconnected, t.buffer⟩, [Recv.data m, Recv.eos])
        else (t, [Recv.data m])
    | none =>
      if t.state = State.Connected then (⟨State.Disconnected, t.buffer⟩, [Recv.eos])
      else (⟨State.Failed, t.buffer⟩, [])
  else (t, [])

/-- `HttpProxyTransport::incoming` with a receiver that does not
throw: the behaviour of the source under normal operation. -/
def incoming : Tunnel → Option (List Char) → Tunnel × List Recv :=
  incomingExc false

/-- `HttpProxyTransport::generateHttpRequest`: the exact CONNECT
request text built from the handshake target. -/
def generateHttpRequest (hostname service : String) : String :=
  "CONNECT " ++ hostname ++ ":" ++ service ++ " HTTP/1.1\r\nHost: " ++ hostname ++ "\r\n\r\n"

/-- `HttpProxyTransport::send`: under the send mutex, throw the
not-open error unless the state is `Connected`, otherwise forward the
message unmodified to the lower transport via `outgoing`.  The
returned `.ok` value is the message handed to the lower transport. -/
def send (t : Tunnel) (m : List Char) : Except String (List Char) :=
  if t.state = State.Connected then Except.ok m
  else Except.error "Http proxy connection is not open"

/-- Result of `HttpProxyTransport::start`: either the CONNECT request
was handed to the lower transport, or the lower transport's send threw
and the exception propagated out of `start`.  Both record the
connection state at the moment `start` returns or throws. -/
inductive StartResult where
  | ok (st : State) (request : String)
  | threw (st : State)
deriving DecidableEq, Repr

/-- `HttpProxyTransport::start`: register for incoming data, change
state to `Connecting`, then send the CONNECT request; `sendThrows`
models the lower transport's send throwing.  The state change happens
before the request is sent, so a throwing send still leaves the state
at `Connecting`. -/
def start (hostname service : String) (sendThrows : Bool) : StartResult :=
  if sendThrows then StartResult.threw State.Connecting
  else StartResult.ok State.Connecting (generateHttpRequest hostname service)

/-- One operation on a tunnel instance, for reasoning about operation
sequences. -/
inductive Op where
  | start
  | stop
  | send (m : List Char)
  | incoming (msg : Option (List Char))
deriving DecidableEq, Repr

/-- Whether an operation is a `start` call. -/
def Op.isStart : Op → Bool
  | Op.start => true
  | _ => false

/-- Effect of one operation on the tunnel and the receiver:
`start` unconditionally changes the state to `Connecting` (before
sending the request); `stop` only unregisters; `send` never mutates
the tunnel (it either forwards or throws to its caller); `incoming`
runs the incoming handler. -/
def applyOp (t : Tunnel) : Op → Tunnel × List Recv
  | Op.start => (⟨State.Connecting, t.buffer⟩, [])
  | Op.stop => (t, [])
  | Op.send _ => (t, [])
  | Op.incoming msg => incoming t msg

/-- Run a sequence of operations, accumulating receiver events. -/
def runOps : Tunnel → List Op → Tunnel × List Recv
  | t, [] => (t, [])
  | t, op :: rest =>
    let r := applyOp t op
    let r2 := runOps r.1 rest
    (r2.1, r.2 ++ r2.2)

/-- Feed a sequence of deliveries to the incoming handler, accumulating
receiver events. -/
def runIncoming : Tunnel → List (Option (List Char)) → Tunnel × List Recv
  | t, [] => (t, [])
  | t, msg :: rest =>
    let r := incoming t msg
    let r2 := runIncoming r.1 rest
    (r2.1, r.2 ++ r2.2)

/-- Concatenation of all payload bytes forwarded to the registered
receiver by a list of `recv` events. -/
def forwardedBytes : List Recv → List Char
  | [] => []
  | Recv.data p :: rest => p ++ forwardedBytes rest
  | Recv.eos :: rest => forwardedBytes rest

/-- A complete header block found in a buffer is unaffected by
appending further bytes: the tokenizer only inspects the block's own
bytes. -/
theorem phlGo_extend (e : List Char) : ∀ (b cur : List Char),
    ∀ r, phlGo b cur = some r → phlGo (b ++ e) cur = some r := by
  intro b cur
  induction b, cur using phlGo.induct with
  | case1 cur => intro r h; simp [phlGo] at h
  | case2 c cur => intro r h; simp [phlGo] at h
  | case3 c d rest hcd =>
    intro r h
    rw [phlGo] at h
    rw [List.cons_append, List.cons_append, phlGo]
    simp only [if_pos hcd] at h ⊢
    exact h
  | case4 c d rest cur hcd hcur hnone ih =>
    intro r h
    rw [phlGo] at h
    simp only [if_pos hcd, if_neg hcur, hnone] at h
    exact Option.noConfusion h
  | case5 c d rest cur hcd hcur lines n hsome ih =>
    intro r h
    rw [phlGo] at h
    rw [List.cons_append, List.cons_append, phlGo]
    simp only [if_pos hcd, if_neg hcur, hsome, ih (lines, n) hsome] at h ⊢
    exact h
  | case6 c d rest cur hne ih =>
    intro r h
    rw [phlGo] at h
    rw [List.cons_append, List.cons_append, phlGo]
    simp only [if_neg hne] at h ⊢
    exact ih r h

/-- The tokenizer never reports more consumed bytes than it was given
(counting the pending partial line in `cur`). -/
theorem phlGo_length : ∀ (b cur : List Char), ∀ lines n,
    phlGo b cur = some (lines, n) → n ≤ cur.length + b.length := by
  intro b cur
  induction b, cur using phlGo.induct with
  | case1 cur => intro lines n h; simp [phlGo] at h
  | case2 c cur => intro lines n h; simp [phlGo] at h
  | case3 c d rest hcd =>
    intro lines n h
    rw [phlGo] at h
    simp only [if_pos hcd, if_pos rfl] at h
    cases h
    simp
  | case4 c d rest cur hcd hcur hnone ih =>
    intro lines n h
    rw [phlGo] at h
    simp only [if_pos hcd, if_neg hcur, hnone] at h
    exact Option.noConfusion h
  | case5 c d rest cur hcd hcur lines0 n0 hsome ih =>
    intro lines n h
    rw [phlGo] at h
    simp only [if_pos hcd, if_neg hcur, hsome] at h
    cases h
    have := ih lines0 n0 hsome
    simp at this ⊢
    omega
  | case6 c d rest cur hne ih =>
    intro lines n h
    rw [phlGo] at h
    simp only [if_neg hne] at h
    have := ih lines n h
    simp at this ⊢
    omega

/-- Appending bytes after a complete header block does not change the
tokenizer's result. -/
theorem parseHttpLines_extend (b e : List Char) (r : List (List Char) × Nat)
    (h : parseHttpLines b = some r) : parseHttpLines (b ++ e) = some r :=
  phlGo_extend e b [] r h

/-- The reported header-block length never exceeds the buffer size. -/
theorem parseHttpLines_length (b : List Char) (lines : List (List Char)) (n : Nat)
    (h : parseHttpLines b = some (lines, n)) : n ≤ b.length := by
  have := phlGo_length b [] lines n h
  simpa using this

theorem parseHttpResponse_waiting (p : List Char)
    (h : parseHttpResponse p = ParseOutcome.waiting) : parseHttpLines p = none := by
  cases hp : parseHttpLines p with
  | none => rfl
  | some r =>
    obtain ⟨lines, length⟩ := r
    unfold parseHttpResponse at h
    rw [hp] at h
    cases lines with
    | nil => simp at h
    | cons l ls =>
      simp only [] at h
      split at h <;> simp at h

theorem parseHttpResponse_success (p : List Char) (n : Nat)
    (h : parseHttpResponse p = ParseOutcome.success n) :
    ∃ lines, parseHttpLines p = some (lines, n) ∧ lines ≠ [] := by
  cases hp : parseHttpLines p with
  | none => unfold parseHttpResponse at h; rw [hp] at h; simp at h
  | some r =>
    obtain ⟨lines, length⟩ := r
    unfold parseHttpResponse at h
    rw [hp] at h
    cases lines with
    | nil => simp at h
    | cons l ls =>
      simp only [] at h
      split at h
      · simp at h
        refine ⟨l :: ls, ?_, by simp⟩
        rw [h]
      · simp at h

theorem parseHttpResponse_failure (p : List Char) (e : String)
    (h : parseHttpResponse p = ParseOutcome.failure e) :
    ∃ r, parseHttpLines p = some r := by
  cases hp : parseHttpLines p with
  | none => unfold parseHttpResponse at h; rw [hp] at h; simp at h
  | some r => exact ⟨r, rfl⟩

theorem parseHttpResponse_extend (p q : List Char) (r : List (List Char) × Nat)
    (h : parseHttpLines p = some r) :
    parseHttpResponse (p ++ q) = parseHttpResponse p := by
  unfold parseHttpResponse
  rw [h, parseHttpLines_extend p q r h]

theorem parseHttpResponse_success_length (p : List Char) (n : Nat)
    (h : parseHttpResponse p = ParseOutcome.success n) : n ≤ p.length := by
  obtain ⟨lines, hl, -⟩ := parseHttpResponse_success p n h
  exact parseHttpLines_length p lines n hl

theorem incomingExc_drop (b : Bool) (t : Tunnel) (msg : Option (List Char))
    (h1 : t.state ≠ State.Connecting) (h2 : t.state ≠ State.Connected) :
    incomingExc b t msg = (t, []) := by
  unfold incomingExc
  simp [h1, h2]

theorem incoming_connected (t : Tunnel) (m : List Char) (h : t.state = State.Connected) :
    incoming t (some m) = (t, [Recv.data m]) := by
  unfold incoming incomingExc
  simp [h]

theorem incoming_connecting_waiting (t : Tunnel) (m : List Char)
    (h : t.state = State.Connecting)
    (hp : parseHttpResponse (t.buffer ++ m) = ParseOutcome.waiting) :
    incoming t (some m) = (⟨State.Connecting, t.buffer ++ m⟩, []) := by
  unfold incoming incomingExc
  simp [h, hp]

theorem incoming_connecting_failure (t : Tunnel) (m : List Char) (e : String)
    (h : t.state = State.Connecting)
    (hp : parseHttpResponse (t.buffer ++ m) = ParseOutcome.failure e) :
    incoming t (some m) = (⟨State.Failed, t.buffer ++ m⟩, []) := by
  unfold incoming incomingExc
  simp [h, hp]

theorem incoming_connecting_success (t : Tunnel) (m : List Char) (len : Nat)
    (h : t.state = State.Connecting)
    (hp : parseHttpResponse (t.buffer ++ m) = ParseOutcome.success len) :
    incoming t (some m) =
      if (t.buffer ++ m).drop len = [] then (⟨State.Connected, (t.buffer ++ m).drop len⟩, [])
      else (⟨State.Connected, []⟩, [Recv.data ((t.buffer ++ m).drop len)]) := by
  unfold incoming incomingExc
  simp [h, hp]

theorem forwardedBytes_append (a b : List Recv) :
    forwardedBytes (a ++ b) = forwardedBytes a ++ forwardedBytes b := by
  induction a with
  | nil => rfl
  | cons x rest ih => cases x <;> simp [forwardedBytes, ih]

theorem runIncoming_connected (t : Tunnel) (h : t.state = State.Connected)
    (msgs : List (List Char)) :
    runIncoming t (msgs.map some) = (t, msgs.map Recv.data) := by
  induction msgs with
  | nil => rfl
  | cons m rest ih =>
    simp only [List.map_cons, runIncoming]
    rw [incoming_connected t m h, ih]
    rfl

theorem forwardedBytes_map_data (msgs : List (List Char)) :
    forwardedBytes (msgs.map Recv.data) = msgs.flatten := by
  induction msgs with
  | nil => rfl
  | cons m rest ih => simp [forwardedBytes, ih]

theorem runIncoming_handshake (s : List Char) (len : Nat)
    (hs : parseHttpResponse s = ParseOutcome.success len) :
    ∀ (frags : List (List Char)) (pre : List Char),
      pre ++ frags.flatten = s →
      parseHttpLines pre = none →
      (runIncoming ⟨State.Connecting, pre⟩ (frags.map some)).1 = ⟨State.Connected, []⟩ ∧
      forwardedBytes (runIncoming ⟨State.Connecting, pre⟩ (frags.map some)).2 = s.drop len := by
  intro frags
  induction frags with
  | nil =>
    intro pre hpre hnone
    simp only [List.flatten_nil, List.append_nil] at hpre
    subst hpre
    unfold parseHttpResponse at hs
    rw [hnone] at hs
    simp at hs
  | cons f rest ih =>
    intro pre hpre hnone
    have hsplit : s = (pre ++ f) ++ rest.flatten := by
      rw [← hpre, List.flatten_cons, List.append_assoc]
    simp only [List.map_cons, runIncoming]
    cases hp : parseHttpResponse (pre ++ f) with
    | waiting =>
      rw [incoming_connecting_waiting ⟨State.Connecting, pre⟩ f rfl hp]
      have h2 := ih (pre ++ f) hsplit.symm (parseHttpResponse_waiting _ hp)
      simpa using h2
    | success len2 =>
      obtain ⟨lines, hl, -⟩ := parseHttpResponse_success _ _ hp
      have hext := parseHttpResponse_extend (pre ++ f) rest.flatten _ hl
      rw [← hsplit, hs, hp] at hext
      have hlen : len2 = len := by
        injection hext with h2
        exact h2.symm
      subst hlen
      have hle : len2 ≤ (pre ++ f).length := parseHttpLines_length _ _ _ hl
      rw [incoming_connecting_success ⟨State.Connecting, pre⟩ f len2 rfl hp]
      have hdrop : s.drop len2 = (pre ++ f).drop len2 ++ rest.flatten := by
        rw [hsplit, List.drop_append_of_le_length hle]
      by_cases hnil : (pre ++ f).drop len2 = []
      · rw [if_pos hnil]
        refine ⟨?_, ?_⟩ <;>
          simp [runIncoming_connected, forwardedBytes_append, forwardedBytes_map_data,
            forwardedBytes, hdrop, hnil]
      · rw [if_neg hnil]
        refine ⟨?_, ?_⟩ <;>
          simp [runIncoming_connected, forwardedBytes_append, forwardedBytes_map_data,
            forwardedBytes, hdrop]
    | failure e =>
      obtain ⟨r, hl⟩ := parseHttpResponse_failure _ _ hp
      have hext := parseHttpResponse_extend (pre ++ f) rest.flatten _ hl
      rw [← hsplit, hs, hp] at hext
      exact ParseOutcome.noConfusion hext

theorem runIncoming_dropped (t : Tunnel) (h1 : t.state ≠ State.Connecting)
    (h2 : t.state ≠ State.Connected) (msgs : List (Option (List Char))) :
    runIncoming t msgs = (t, []) := by
  induction msgs with
  | nil => rfl
  | cons msg rest ih =>
    simp only [runIncoming]
    rw [show incoming t msg = (t, []) from incomingExc_drop false t msg h1 h2, ih]
    rfl

theorem applyOp_failed (t : Tunnel) (h : t.state = State.Failed) (op : Op)
    (hop : op.isStart = false) : applyOp t op = (t, []) := by
  cases op with
  | start => simp [Op.isStart] at hop
  | stop => rfl
  | send m => rfl
  | incoming msg =>
    exact incomingExc_drop false t msg (by rw [h]; simp) (by rw [h]; simp)

/-- C1: a delivery received while `Connecting` whose accumulated bytes
form a complete 200-status header block of length `len` followed by at
least one trailing byte makes `incoming` transition to `Connected`,
remove exactly the `len` header bytes, deliver the trailing bytes to
the receiver in a single `recv` call with no header bytes included,
and leave the pending buffer empty. -/
theorem claim1_header_then_payload (t : Tunnel) (m : List Char) (len : Nat)
    (hst : t.state = State.Connecting)
    (hp : parseHttpResponse (t.buffer ++ m) = ParseOutcome.success len)
    (hlt : len < (t.buffer ++ m).length) :
    incoming t (some m) =
      (⟨State.Connected, []⟩, [Recv.data ((t.buffer ++ m).drop len)]) ∧
    (t.buffer ++ m).drop len ≠ [] := by
  have hne : (t.buffer ++ m).drop len ≠ [] := by
    rw [Ne, List.drop_eq_nil_iff]
    omega
  refine ⟨?_, hne⟩
  rw [incoming_connecting_success t m len hst hp, if_neg hne]

theorem claim1_header_then_payload_witness :
    incoming ⟨State.Connecting, []⟩ (some "HTTP/1.1 200 OK\r\n\r\nAB".toList) =
      (⟨State.Connected, []⟩, [Recv.data ['A', 'B']]) := by
  have h := (claim1_header_then_payload ⟨State.Connecting, []⟩
    "HTTP/1.1 200 OK\r\n\r\nAB".toList 19 rfl (by decide) (by decide)).1
  rw [h]
  decide

/-- C2: for a byte sequence that parses as a complete 200-status
response of length `len` (possibly followed by payload), feeding any
splitting of it into non-empty fragments one delivery at a time from a
fresh `Connecting` tunnel produces the same final tunnel and the same
concatenation of bytes forwarded to the receiver as feeding the whole
sequence in a single delivery. -/
theorem claim2_fragmentation_independence (s : List Char) (frags : List (List Char)) (len : Nat)
    (hs : parseHttpResponse s = ParseOutcome.success len)
    (hjoin : frags.flatten = s)
    (hne : ∀ f ∈ frags, f ≠ []) :
    (runIncoming ⟨State.Connecting, []⟩ (frags.map some)).1 =
      (runIncoming ⟨State.Connecting, []⟩ [some s]).1 ∧
    forwardedBytes (runIncoming ⟨State.Connecting, []⟩ (frags.map some)).2 =
      forwardedBytes (runIncoming ⟨State.Connecting, []⟩ [some s]).2 := by
  have hmulti := runIncoming_handshake s len hs frags [] (by simpa using hjoin) rfl
  have hsingle := runIncoming_handshake s len hs [s] [] (by simp) rfl
  simp only [List.map_cons, List.map_nil] at hsingle
  exact ⟨hmulti.1.trans hsingle.1.symm, hmulti.2.trans hsingle.2.symm⟩

theorem claim2_fragmentation_independence_witness :
    (runIncoming ⟨State.Connecting, []⟩
        (["HTT".toList, "P/1.1 200 OK\r\n".toList, "\r\nAB".toList].map some)).1 =
      (runIncoming ⟨State.Connecting, []⟩ [some "HTTP/1.1 200 OK\r\n\r\nAB".toList]).1 ∧
    forwardedBytes (runIncoming ⟨State.Connecting, []⟩
        (["HTT".toList, "P/1.1 200 OK\r\n".toList, "\r\nAB".toList].map some)).2 =
      forwardedBytes (runIncoming ⟨State.Connecting, []⟩ [some "HTTP/1.1 200 OK\r\n\r\nAB".toList]).2 := by
  have h := claim2_fragmentation_independence "HTTP/1.1 200 OK\r\n\r\nAB".toList
    ["HTT".toList, "P/1.1 200 OK\r\n".toList, "\r\nAB".toList] 19 (by decide) (by decide)
    (by decide)
  exact h

/-- C3: `generateHttpRequest` produces exactly the bytes
`CONNECT <host>:<service> HTTP/1.1\r\nHost: <host>\r\n\r\n` with CRLF
line terminators and nothing else. -/
theorem claim3_generateHttpRequest_exact (hostname service : String) :
    (generateHttpRequest hostname service).data =
      "CONNECT ".data ++ hostname.data ++ ":".data ++ service.data ++
        " HTTP/1.1\r\nHost: ".data ++ hostname.data ++ "\r\n\r\n".data := by
  simp [generateHttpRequest, String.data_append]

/-- C4: a complete header block whose status line does not carry the
numeric code 200 (including a block with no lines at all, whose status
code reads as 0) makes `parseHttpResponse` fail rather than return a
length, and a delivery completing such a block while `Connecting`
drives the tunnel to `Failed` with nothing forwarded, after which all
further deliveries are dropped without forwarding anything. -/
theorem claim4_non200_rejected (t : Tunnel) (m : List Char)
    (lines : List (List Char)) (n : Nat)
    (hl : parseHttpLines (t.buffer ++ m) = some (lines, n))
    (hcode : parseStatusCode (lines.headD []) ≠ 200) :
    (∃ e, parseHttpResponse (t.buffer ++ m) = ParseOutcome.failure e) ∧
    (t.state = State.Connecting →
      incoming t (some m) = (⟨State.Failed, t.buffer ++ m⟩, []) ∧
      ∀ msgs, runIncoming ⟨State.Failed, t.buffer ++ m⟩ msgs =
        (⟨State.Failed, t.buffer ++ m⟩, [])) := by
  have hfail : ∃ e, parseHttpResponse (t.buffer ++ m) = ParseOutcome.failure e := by
    unfold parseHttpResponse
    rw [hl]
    cases lines with
    | nil => exact ⟨"Invalid http request for proxy", rfl⟩
    | cons l ls =>
      simp only [List.headD_cons] at hcode
      exact ⟨"Unexpected response code " ++ toString (parseStatusCode l) ++ " for proxy",
        by simp [hcode]⟩
  refine ⟨hfail, fun hst => ?_⟩
  obtain ⟨e, he⟩ := hfail
  refine ⟨incoming_connecting_failure t m e hst he, fun msgs => ?_⟩
  exact runIncoming_dropped ⟨State.Failed, t.buffer ++ m⟩ (by simp) (by simp) msgs

theorem claim4_non200_rejected_witness :
    (∃ e, parseHttpResponse (([] : List Char) ++ "HTTP/1.1 403 Forbidden\r\n\r\n".toList) =
      ParseOutcome.failure e) ∧
    incoming ⟨State.Connecting, []⟩ (some "HTTP/1.1 403 Forbidden\r\n\r\n".toList) =
      (⟨State.Failed, ([] : List Char) ++ "HTTP/1.1 403 Forbidden\r\n\r\n".toList⟩, []) := by
  have h := claim4_non200_rejected ⟨State.Connecting, []⟩
    "HTTP/1.1 403 Forbidden\r\n\r\n".toList ["HTTP/1.1 403 Forbidden".toList] 26
    (by decide) (by decide)
  exact ⟨h.1, (h.2 rfl).1⟩

/-- C5 counterexample: an empty but present payload delivered while
`Connected` is passed through as data (the state stays `Connected`),
not treated as the end-of-stream signal the claim requires to yield
`Disconnected`. -/
theorem claim5_counterexample :
    incoming ⟨State.Connected, []⟩ (some []) = (⟨State.Connected, []⟩, [Recv.data []]) ∧
    State.Connected ≠ State.Disconnected := by
  constructor
  · rfl
  · decide

/-- C5 amended: an absent payload (null message, the only end-of-stream
representation) received while `Connected` transitions to
`Disconnected` and forwards the end-of-stream signal; received while
`Connecting` it transitions to `Failed` and forwards nothing.  An
empty but present payload is instead handled as ordinary data. -/
theorem claim5_eos_handling (t : Tunnel) :
    (t.state = State.Connected →
      incoming t none = (⟨State.Disconnected, t.buffer⟩, [Recv.eos])) ∧
    (t.state = State.Connecting →
      incoming t none = (⟨State.Failed, t.buffer⟩, [])) := by
  constructor <;> intro h <;> unfold incoming incomingExc <;> simp [h]

theorem claim5_eos_handling_witness :
    incoming ⟨State.Connected, ['x']⟩ none = (⟨State.Disconnected, ['x']⟩, [Recv.eos]) ∧
    incoming ⟨State.Connecting, ['x']⟩ none = (⟨State.Failed, ['x']⟩, []) :=
  ⟨(claim5_eos_handling ⟨State.Connected, ['x']⟩).1 rfl,
   (claim5_eos_handling ⟨State.Connecting, ['x']⟩).2 rfl⟩

/-- C6: `send` succeeds and forwards the message unmodified to the
lower transport exactly when the state is `Connected`; in every other
state it raises the not-open error and forwards nothing. -/
theorem claim6_send_gate (t : Tunnel) (m : List Char) :
    (t.state = State.Connected → send t m = Except.ok m) ∧
    (t.state ≠ State.Connected →
      send t m = Except.error "Http proxy connection is not open") := by
  constructor <;> intro h <;> simp [send, h]

theorem claim6_send_gate_witness :
    send ⟨State.Connected, []⟩ ['a'] = Except.ok ['a'] ∧
    send ⟨State.Connecting, []⟩ ['a'] =
      Except.error "Http proxy connection is not open" :=
  ⟨(claim6_send_gate ⟨State.Connected, []⟩ ['a']).1 rfl,
   (claim6_send_gate ⟨State.Connecting, []⟩ ['a']).2 (by decide)⟩

/-- C7 counterexample: when the lower transport's send throws during
`start`, the state has already been advanced to `Connecting` — it does
not remain `Disconnected` as the claim states. -/
theorem claim7_counterexample :
    start "example.com" "443" true = StartResult.threw State.Connecting ∧
    State.Connecting ≠ State.Disconnected := by
  constructor
  · rfl
  · decide

/-- C7 amended: `start` changes the state to `Connecting` before
sending the CONNECT request, so a throwing lower-transport send
propagates to the caller with the state already advanced to
`Connecting`; a non-throwing send leaves the state `Connecting` and
hands the generated CONNECT request to the lower transport. -/
theorem claim7_start_state (hostname service : String) :
    start hostname service true = StartResult.threw State.Connecting ∧
    start hostname service false =
      StartResult.ok State.Connecting (generateHttpRequest hostname service) :=
  ⟨rfl, rfl⟩

/-- C8 counterexample: an exception raised by the receiver during
pass-through delivery while `Connected` leads to `Disconnected` (with
an end-of-stream forwarded), not to `Failed` as the claim states. -/
theorem claim8_counterexample :
    incomingExc true ⟨State.Connected, []⟩ (some ['a']) =
      (⟨State.Disconnected, []⟩, [Recv.data ['a'], Recv.eos]) ∧
    State.Disconnected ≠ State.Failed := by
  constructor
  · rfl
  · decide

/-- C8 amended: exceptions inside the incoming handler are caught
locally (the handler is a total function of the tunnel and delivery):
a parse failure while `Connecting` drives the tunnel to `Failed` with
nothing delivered in that invocation, whether or not the receiver
throws; a receiver exception during pass-through while `Connected`
instead drives the tunnel to `Disconnected` and forwards the
end-of-stream signal after the interrupted delivery. -/
theorem claim8_exception_paths (t : Tunnel) (m : List Char) :
    (∀ e b, t.state = State.Connecting →
      parseHttpResponse (t.buffer ++ m) = ParseOutcome.failure e →
      incomingExc b t (some m) = (⟨State.Failed, t.buffer ++ m⟩, [])) ∧
    (t.state = State.Connected →
      incomingExc true t (some m) =
        (⟨State.Disconnected, t.buffer⟩, [Recv.data m, Recv.eos])) := by
  constructor
  · intro e b hst hp
    unfold incomingExc
    simp [hst, hp]
  · intro hst
    unfold incomingExc
    simp [hst]

theorem claim8_exception_paths_witness :
    incomingExc true ⟨State.Connecting, []⟩ (some "HTTP/1.1 403 Forbidden\r\n\r\n".toList) =
      (⟨State.Failed, "HTTP/1.1 403 Forbidden\r\n\r\n".toList⟩, []) ∧
    incomingExc true ⟨State.Connected, ['b']⟩ (some ['a']) =
      (⟨State.Disconnected, ['b']⟩, [Recv.data ['a'], Recv.eos]) := by
  constructor
  · have h := (claim8_exception_paths ⟨State.Connecting, []⟩
      "HTTP/1.1 403 Forbidden\r\n\r\n".toList).1
      "Unexpected response code 403 for proxy" true rfl (by decide)
    simpa using h
  · exact (claim8_exception_paths ⟨State.Connected, ['b']⟩ ['a']).2 rfl

/-- C9 counterexample: `start` called on a `Failed` tunnel
unconditionally changes the state to `Connecting`, so `Failed` is not
absorbing under the full operation set including `start`. -/
theorem claim9_counterexample :
    runOps ⟨State.Failed, []⟩ [Op.start] = (⟨State.Connecting, []⟩, []) ∧
    State.Connecting ≠ State.Failed := by
  constructor
  · rfl
  · decide

/-- C9 amended: once `Failed`, every sequence of `stop`, `send` and
`incoming` operations leaves the tunnel unchanged and forwards
nothing — only a renewed `start` call leaves `Failed` (it
unconditionally sets `Connecting`); and any delivery received while
the state is neither `Connecting` nor `Connected` is silently dropped
with no state change and nothing forwarded. -/
theorem claim9_failed_absorbing (t : Tunnel) (ops : List Op) (msg : Option (List Char)) :
    (t.state = State.Failed → (∀ op ∈ ops, op.isStart = false) → runOps t ops = (t, [])) ∧
    (t.state ≠ State.Connecting → t.state ≠ State.Connected →
      incoming t msg = (t, [])) := by
  constructor
  · intro hst hops
    induction ops with
    | nil => rfl
    | cons op rest ih =>
      simp only [runOps]
      rw [applyOp_failed t hst op (hops op (by simp)),
        ih (fun o ho => hops o (by simp [ho]))]
      rfl
  · intro h1 h2
    exact incomingExc_drop false t msg h1 h2

theorem claim9_failed_absorbing_witness :
    runOps ⟨State.Failed, []⟩
      [Op.stop, Op.send ['a'], Op.incoming (some ['b']), Op.incoming none] =
      (⟨State.Failed, []⟩, []) ∧
    incoming ⟨State.Failed, []⟩ (some ['b']) = (⟨State.Failed, []⟩, []) :=
  ⟨(claim9_failed_absorbing ⟨State.Failed, []⟩ _ (some ['b'])).1 rfl (by decide),
   (claim9_failed_absorbing ⟨State.Failed, []⟩ [] (some ['b'])).2 (by decide) (by decide)⟩

/-- C10: whenever `parseHttpResponse` reports a successfully parsed
header block of length `n`, that length is bounded by the size of the
buffer it was given (the modelled line tokenizer never reports more
consumed bytes than its input holds), so erasing `n` bytes from the
front of the pending buffer is in bounds; and whenever it reports no
complete block, the incoming handler keeps the `Connecting` state and
leaves the pending buffer unchanged apart from the appended new
bytes, forwarding nothing. -/
theorem claim10_buffer_safety (buf : List Char) (t : Tunnel) (m : List Char) :
    (∀ n, parseHttpResponse buf = ParseOutcome.success n → n ≤ buf.length) ∧
    (t.state = State.Connecting →
      parseHttpResponse (t.buffer ++ m) = ParseOutcome.waiting →
      incoming t (some m) = (⟨State.Connecting, t.buffer ++ m⟩, [])) :=
  ⟨fun n h => parseHttpResponse_success_length buf n h,
   fun h hp => incoming_connecting_waiting t m h hp⟩

theorem claim10_buffer_safety_witness :
    (19 : Nat) ≤ "HTTP/1.1 200 OK\r\n\r\n".toList.length ∧
    incoming ⟨State.Connecting, []⟩ (some "HTTP/1.1 ".toList) =
      (⟨State.Connecting, ([] : List Char) ++ "HTTP/1.1 ".toList⟩, []) :=
  ⟨(claim10_buffer_safety "HTTP/1.1 200 OK\r\n\r\n".toList ⟨State.Connecting, []⟩
      "HTTP/1.1 ".toList).1 19 (by decide),
   (claim10_buffer_safety "HTTP/1.1 200 OK\r\n\r\n".toList ⟨State.Connecting, []⟩
      "HTTP/1.1 ".toList).2 rfl (by decide)⟩

end HttpProxyTransport

